import Mathlib

/-!
Verification development for `kernel/include/linux/alf_queue.h` (ALF:
Array-based Lock-Free queue).  The C header is shallowly embedded below:
the queue struct becomes a Lean structure, `u32` arithmetic becomes `Nat`
arithmetic reduced modulo `2^32 = 4294967296`, the ring array and the
caller-supplied pointer arrays become total functions `Nat → α`, and the
two public operations `alf_mp_enqueue` / `alf_mc_dequeue` are modelled as
state transformers describing one call running uninterleaved to
completion (the reservation `cmpxchg` then always succeeds on the first
round, and the busy-wait on the opposite-ordered publish terminates
exactly when the tail already equals the call's head snapshot; a state
in which the wait would spin forever is modelled as `none`).

A second, separate small-step model (`prod_step` / `cons_step` /
`sys_step`) embeds the same two functions as interleavable thread state
machines, one atomic shared-memory access per step, which is used to
analyse the concurrent reservation protocol.
-/

/-- C `u32` addition: wraps at `2^32`. -/
def add32 (a b : Nat) : Nat := (a + b) % 4294967296

/-- C `u32` subtraction: wraps at `2^32`. -/
def sub32 (a b : Nat) : Nat := (4294967296 + a % 4294967296 - b % 4294967296) % 4294967296

/-- `struct alf_actor { u32 head; u32 tail; }`. -/
structure alf_actor where
  head : Nat
  tail : Nat
deriving Repr, DecidableEq

/-- `struct alf_queue` (the `flags` field is never read by any code in the
header and is omitted; the flexible array member `ring[0]` is modelled as a
total function from indices to stored references). -/
structure alf_queue (α : Type) where
  size : Nat
  mask : Nat
  producer : alf_actor
  consumer : alf_actor
  ring : Nat → α

/-- Loop of `__helper_alf_enqueue_store_mask`:
`for (i = 0; i < n; i++, index++) q->ring[index & q->mask] = ptr[i];`.
`count` is the number of remaining iterations. -/
def store_mask_go {α : Type} (mask : Nat) (ptr : Nat → α) (i index count : Nat)
    (ring : Nat → α) : Nat → α :=
  match count with
  | 0 => ring
  | m + 1 =>
    store_mask_go mask ptr (i + 1) (index + 1) m
      (fun j => if j = index &&& mask then ptr i else ring j)

/-- `__helper_alf_enqueue_store_mask(p_head, c_tail, q, ptr, n)`; returns the
updated ring (`c_tail` is unused, exactly as in the source). -/
def __helper_alf_enqueue_store_mask {α : Type} (p_head _c_tail : Nat) (q : alf_queue α)
    (ptr : Nat → α) (n : Nat) : Nat → α :=
  store_mask_go q.mask ptr 0 p_head n q.ring

/-- Loop of `__helper_alf_enqueue_store_simple`:
`q->ring[index] = ptr[i]; if (index == q->size) index = 0;` followed by the
`index++` of the `for` header. -/
def store_simple_go {α : Type} (size : Nat) (ptr : Nat → α) (i index count : Nat)
    (ring : Nat → α) : Nat → α :=
  match count with
  | 0 => ring
  | m + 1 =>
    store_simple_go size ptr (i + 1) ((if index = size then 0 else index) + 1) m
      (fun j => if j = index then ptr i else ring j)

/-- `__helper_alf_enqueue_store_simple(p_head, c_tail, q, ptr, n)`. -/
def __helper_alf_enqueue_store_simple {α : Type} (p_head _c_tail : Nat) (q : alf_queue α)
    (ptr : Nat → α) (n : Nat) : Nat → α :=
  store_simple_go q.size ptr 0 p_head n q.ring

/-- `memcpy(&dst[dstOff], &src[srcOff], count * sizeof(elem))` on element
arrays modelled as total functions. -/
def memBlockCopy {α : Type} (dst : Nat → α) (dstOff : Nat) (src : Nat → α)
    (srcOff count : Nat) : Nat → α :=
  fun j => if dstOff ≤ j ∧ j < dstOff + count then src (srcOff + (j - dstOff)) else dst j

/-- `__helper_alf_enqueue_store_memcpy(p_head, c_tail, q, ptr, n)`
(the variant the source annotates with `// CONTAINS SOME BUG`). -/
def __helper_alf_enqueue_store_memcpy {α : Type} (p_head c_tail : Nat) (q : alf_queue α)
    (ptr : Nat → α) (n : Nat) : Nat → α :=
  if p_head ≥ c_tail then
    memBlockCopy q.ring p_head ptr 0 n
  else
    let dif := sub32 q.size c_tail
    let ring1 := if dif ≠ 0 then memBlockCopy q.ring p_head ptr 0 dif else q.ring
    memBlockCopy ring1 0 ptr dif (sub32 c_tail dif)

/-- Loop of `__helper_alf_dequeue_load_mask`:
`for (i = 0; i < elems; i++, index++) ptr[i] = q->ring[index & q->mask];`. -/
def load_mask_go {α : Type} (mask : Nat) (ring : Nat → α) (i index count : Nat)
    (out : Nat → α) : Nat → α :=
  match count with
  | 0 => out
  | m + 1 =>
    load_mask_go mask ring (i + 1) (index + 1) m
      (fun j => if j = i then ring (index &&& mask) else out j)

/-- `__helper_alf_dequeue_load_mask(c_head, p_tail, q, ptr, elems)`; returns
the updated destination buffer (`p_tail` is unused, as in the source). -/
def __helper_alf_dequeue_load_mask {α : Type} (c_head _p_tail : Nat) (q : alf_queue α)
    (out : Nat → α) (elems : Nat) : Nat → α :=
  load_mask_go q.mask q.ring 0 c_head elems out

/-- Loop of `__helper_alf_dequeue_load_simple`:
`ptr[i] = q->ring[index]; if (index == q->size) index = 0;` plus `index++`. -/
def load_simple_go {α : Type} (size : Nat) (ring : Nat → α) (i index count : Nat)
    (out : Nat → α) : Nat → α :=
  match count with
  | 0 => out
  | m + 1 =>
    load_simple_go size ring (i + 1) ((if index = size then 0 else index) + 1) m
      (fun j => if j = i then ring index else out j)

/-- `__helper_alf_dequeue_load_simple(c_head, p_tail, q, ptr, elems)`. -/
def __helper_alf_dequeue_load_simple {α : Type} (c_head _p_tail : Nat) (q : alf_queue α)
    (out : Nat → α) (elems : Nat) : Nat → α :=
  load_simple_go q.size q.ring 0 c_head elems out

/-- `__helper_alf_dequeue_load_memcpy(c_head, p_tail, q, ptr, elems)`
(the other `// CONTAINS SOME BUG` variant). -/
def __helper_alf_dequeue_load_memcpy {α : Type} (c_head p_tail : Nat) (q : alf_queue α)
    (out : Nat → α) (elems : Nat) : Nat → α :=
  if p_tail > c_head then
    memBlockCopy out 0 q.ring c_head elems
  else
    let dif := min (sub32 q.size c_head) elems
    let out1 := if dif ≠ 0 then memBlockCopy out 0 q.ring c_head dif else out
    memBlockCopy out1 dif q.ring 0 (sub32 p_tail dif)

/-- `alf_queue_empty`: true iff `consumer.tail == producer.tail`. -/
def alf_queue_empty {α : Type} (q : alf_queue α) : Bool :=
  q.consumer.tail == q.producer.tail

/-- `alf_queue_count`: `(p_tail - c_head) & q->mask`. -/
def alf_queue_count {α : Type} (q : alf_queue α) : Nat :=
  sub32 q.producer.tail q.consumer.head &&& q.mask

/-- `alf_queue_avail_space`: `(c_tail - p_head - 1) & q->mask`. -/
def alf_queue_avail_space {α : Type} (q : alf_queue α) : Nat :=
  sub32 (sub32 q.consumer.tail q.producer.head) 1 &&& q.mask

/-- Linux `ENOBUFS` errno (`alf_mp_enqueue` returns `-ENOBUFS`). -/
def ENOBUFS : Int := 105

/-- `alf_mp_enqueue(q, ptr, n)` as a sequential state transformer: the
result value paired with the post state.  Since only this call runs, the
`cmpxchg(&q->producer.head, p_head, p_next)` sees an unchanged head and
succeeds on the first loop iteration; the busy-wait
`while (producer.tail != p_head) cpu_relax();` terminates iff
`producer.tail = p_head` already holds, and a state that would spin
forever yields `none`. -/
def alf_mp_enqueue {α : Type} (q : alf_queue α) (ptr : Nat → α) (n : Nat) :
    Option (Int × alf_queue α) :=
  let mask := q.mask
  let p_head := q.producer.head
  let c_tail := q.consumer.tail
  let space := sub32 (sub32 c_tail p_head) 1 &&& mask
  if n > space then some (-ENOBUFS, q)
  else
    let p_next := add32 p_head n &&& mask
    let ring1 := __helper_alf_enqueue_store_mask p_head c_tail q ptr n
    if q.producer.tail = p_head then
      some ((n : Int), { q with producer := ⟨p_next, p_next⟩, ring := ring1 })
    else none

/-- `alf_mc_dequeue(q, ptr, n)` as a sequential state transformer: result
value, post state, and the caller's output buffer after the loads.  Same
conventions as `alf_mp_enqueue` for the `cmpxchg` and the busy-wait. -/
def alf_mc_dequeue {α : Type} (q : alf_queue α) (out : Nat → α) (n : Nat) :
    Option (Int × alf_queue α × (Nat → α)) :=
  let mask := q.mask
  let c_head := q.consumer.head
  let p_tail := q.producer.tail
  let elems0 := sub32 p_tail c_head &&& mask
  if elems0 = 0 then some (0, q, out)
  else
    let elems := min elems0 n
    let c_next := add32 c_head elems &&& mask
    let out1 := __helper_alf_dequeue_load_mask c_head p_tail q out elems
    if q.consumer.tail = c_head then
      some ((elems : Int), { q with consumer := ⟨c_next, c_next⟩ }, out1)
    else none

/-- The freshly created queue: both cursor pairs zeroed (`alf_queue_alloc`
uses `kzalloc`), ring contents arbitrary. -/
def alf_queue_init {α : Type} (size mask : Nat) (ring0 : Nat → α) : alf_queue α :=
  { size := size, mask := mask, producer := ⟨0, 0⟩, consumer := ⟨0, 0⟩, ring := ring0 }

/-- States reachable from `q0` by complete, uninterleaved enqueue and
dequeue calls. -/
inductive alf_reachable {α : Type} (q0 : alf_queue α) : alf_queue α → Prop
  | refl : alf_reachable q0 q0
  | enq {q q' : alf_queue α} (ptr : Nat → α) (n : Nat) (r : Int) :
      alf_reachable q0 q → alf_mp_enqueue q ptr n = some (r, q') → alf_reachable q0 q'
  | deq {q q' : alf_queue α} (out : Nat → α) (n : Nat) (r : Int) (out' : Nat → α) :
      alf_reachable q0 q → alf_mc_dequeue q out n = some (r, q', out') →
      alf_reachable q0 q'

/-! ### Small-step interleaving model of the concurrent protocol

Each `ACCESS_ONCE` read, each `cmpxchg`, each tail store, and each data
transfer is one atomic step; local computations are folded into the step
that performs the adjacent shared access.  This mirrors the bodies of
`alf_mp_enqueue` and `alf_mc_dequeue` line by line. -/

/-- Program counter of a producer executing `alf_mp_enqueue`, carrying the
local variables read so far.  `store`, `wait` and `publish` are the phases
in which the call holds a granted (successfully `cmpxchg`ed) but not yet
published reservation `[p_head, p_head + n)`. -/
inductive prod_pc where
  | readHead : prod_pc
  | readCtail (p_head : Nat) : prod_pc
  | cas (p_head c_tail p_next : Nat) : prod_pc
  | store (p_head c_tail p_next : Nat) : prod_pc
  | wait (p_head p_next : Nat) : prod_pc
  | publish (p_head p_next : Nat) : prod_pc
  | done (ret : Int) : prod_pc
deriving Repr, DecidableEq

/-- A producer thread: its call arguments and its program counter. -/
structure prod_thread where
  ptr : Nat → Nat
  n : Nat
  pc : prod_pc

/-- One atomic step of a producer thread against the shared queue. -/
def prod_step (q : alf_queue Nat) (t : prod_thread) : alf_queue Nat × prod_thread :=
  match t.pc with
  | .readHead =>
      (q, { t with pc := .readCtail q.producer.head })
  | .readCtail p_head =>
      let c_tail := q.consumer.tail
      let space := sub32 (sub32 c_tail p_head) 1 &&& q.mask
      if t.n > space then (q, { t with pc := .done (-ENOBUFS) })
      else (q, { t with pc := .cas p_head c_tail (add32 p_head t.n &&& q.mask) })
  | .cas p_head c_tail p_next =>
      if q.producer.head = p_head then
        ({ q with producer := ⟨p_next, q.producer.tail⟩ },
         { t with pc := .store p_head c_tail p_next })
      else (q, { t with pc := .readHead })
  | .store p_head c_tail p_next =>
      ({ q with ring := __helper_alf_enqueue_store_mask p_head c_tail q t.ptr t.n },
       { t with pc := .wait p_head p_next })
  | .wait p_head p_next =>
      if q.producer.tail = p_head then (q, { t with pc := .publish p_head p_next })
      else (q, t)
  | .publish _p_head p_next =>
      ({ q with producer := ⟨q.producer.head, p_next⟩ },
       { t with pc := .done (t.n : Int) })
  | .done _ => (q, t)

/-- Program counter of a consumer executing `alf_mc_dequeue`. -/
inductive cons_pc where
  | readHead : cons_pc
  | readPtail (c_head : Nat) : cons_pc
  | cas (c_head p_tail elems c_next : Nat) : cons_pc
  | load (c_head p_tail elems c_next : Nat) : cons_pc
  | wait (c_head elems c_next : Nat) : cons_pc
  | publish (c_head elems c_next : Nat) : cons_pc
  | done (ret : Int) : cons_pc
deriving Repr, DecidableEq

/-- A consumer thread: its request size, private output buffer, and pc. -/
structure cons_thread where
  out : Nat → Nat
  n : Nat
  pc : cons_pc

/-- One atomic step of a consumer thread against the shared queue. -/
def cons_step (q : alf_queue Nat) (t : cons_thread) : alf_queue Nat × cons_thread :=
  match t.pc with
  | .readHead =>
      (q, { t with pc := .readPtail q.consumer.head })
  | .readPtail c_head =>
      let p_tail := q.producer.tail
      let elems0 := sub32 p_tail c_head &&& q.mask
      if elems0 = 0 then (q, { t with pc := .done 0 })
      else
        let elems := min elems0 t.n
        (q, { t with pc := .cas c_head p_tail elems (add32 c_head elems &&& q.mask) })
  | .cas c_head p_tail elems c_next =>
      if q.consumer.head = c_head then
        ({ q with consumer := ⟨c_next, q.consumer.tail⟩ },
         { t with pc := .load c_head p_tail elems c_next })
      else (q, { t with pc := .readHead })
  | .load c_head p_tail elems c_next =>
      (q, { t with out := __helper_alf_dequeue_load_mask c_head p_tail q t.out elems,
                   pc := .wait c_head elems c_next })
  | .wait c_head elems c_next =>
      if q.consumer.tail = c_head then (q, { t with pc := .publish c_head elems c_next })
      else (q, t)
  | .publish _c_head elems c_next =>
      ({ q with consumer := ⟨q.consumer.head, c_next⟩ },
       { t with pc := .done (elems : Int) })
  | .done _ => (q, t)

/-- A thread of the concurrent system. -/
inductive sys_thread where
  | prod (t : prod_thread) : sys_thread
  | cons (t : cons_thread) : sys_thread

/-- A configuration: the shared queue plus all thread states. -/
structure sys_config where
  q : alf_queue Nat
  threads : List sys_thread

/-- Let thread `i` take its next atomic step. -/
def sys_step (cfg : sys_config) (i : Nat) : sys_config :=
  match cfg.threads[i]? with
  | none => cfg
  | some (.prod t) =>
      let r := prod_step cfg.q t
      ⟨r.1, cfg.threads.set i (.prod r.2)⟩
  | some (.cons t) =>
      let r := cons_step cfg.q t
      ⟨r.1, cfg.threads.set i (.cons r.2)⟩

/-- Run a schedule (a list of thread indices), one atomic step each. -/
def sys_run (cfg : sys_config) : List Nat → sys_config
  | [] => cfg
  | i :: rest => sys_run (sys_step cfg i) rest

/-- The masked slot indices of a reservation of `len` elements starting at
(unmasked) index `start`. -/
def range_idxs (mask start len : Nat) : List Nat :=
  (List.range len).map (fun i => (start + i) &&& mask)

/-- The currently granted-but-unpublished producer-side reservation of a
thread, as a list of masked slot indices (`[]` if it holds none). -/
def prod_granted_idxs (mask : Nat) : Option sys_thread → List Nat
  | some (.prod t) =>
      match t.pc with
      | .store p_head _ _ => range_idxs mask p_head t.n
      | .wait p_head _ => range_idxs mask p_head t.n
      | .publish p_head _ => range_idxs mask p_head t.n
      | _ => []
  | _ => []

/-- Initial configuration for the reservation-overlap schedule: a size-4
queue, producer threads A(n=3), B(n=3), C(n=1), D(n=2) at indices 0..3,
and one consumer X(n=3) at index 4. -/
def overlap_cfg : sys_config :=
  ⟨alf_queue_init 4 3 (fun _ => 0),
   [ .prod ⟨fun i => 100 + i, 3, .readHead⟩,
     .prod ⟨fun i => 200 + i, 3, .readHead⟩,
     .prod ⟨fun i => 300 + i, 1, .readHead⟩,
     .prod ⟨fun i => 400 + i, 2, .readHead⟩,
     .cons ⟨fun _ => 0, 3, .readHead⟩ ]⟩

/-- The interleaving: A snapshots `head = 0` and `tail = 0`; B enqueues 3
to completion (head and tail reach 3); X dequeues 3 to completion
(consumer cursors reach 3); C reserves 1 element (its CAS wraps the head
from 3 to 0) and stalls before storing; A's stale CAS (0 → 3) now
succeeds; D then reserves 2 elements starting at head 3. -/
def overlap_sched : List Nat :=
  [0, 0, 1, 1, 1, 1, 1, 1, 4, 4, 4, 4, 4, 4, 2, 2, 2, 0, 3, 3, 3]

/-! ### Arithmetic facts about `u32` cursor arithmetic on a power-of-two ring -/

theorem two_pow_dvd_u32 {k : Nat} (hk : k ≤ 32) : (2 : Nat) ^ k ∣ 4294967296 := by
  have h : (4294967296 : Nat) = 2 ^ 32 := by norm_num
  rw [h]
  exact pow_dvd_pow 2 hk

theorem two_pow_le_u32 {k : Nat} (hk : k ≤ 32) : (2 : Nat) ^ k ≤ 4294967296 := by
  have h : (4294967296 : Nat) = 2 ^ 32 := by norm_num
  rw [h]
  exact Nat.pow_le_pow_right (by norm_num) hk

theorem sub32_lt_u32 (a b : Nat) : sub32 a b < 4294967296 :=
  Nat.mod_lt _ (by norm_num)

theorem sub32_val {a b : Nat} (ha : a < 4294967296) (hb : b < 4294967296) :
    sub32 a b = if b ≤ a then a - b else 4294967296 + a - b := by
  unfold sub32
  split <;> omega

theorem mod_pow_reduce {k : Nat} (hk : k ≤ 32) (x y : Nat) (hy : y ≤ 2 ^ k) :
    (4294967296 + x - y) % 2 ^ k = (2 ^ k + x - y) % 2 ^ k := by
  have h1 : (1 : Nat) ≤ 2 ^ (32 - k) := Nat.one_le_two_pow
  have hM : (4294967296 : Nat) = 2 ^ k * (2 ^ (32 - k) - 1) + 2 ^ k := by
    have h2 : (2 : Nat) ^ k * 2 ^ (32 - k) = 2 ^ (k + (32 - k)) := (pow_add 2 k (32 - k)).symm
    have h3 : k + (32 - k) = 32 := by omega
    have h4 : (2 : Nat) ^ k * 2 ^ (32 - k) = 4294967296 := by rw [h2, h3]; norm_num
    calc (4294967296 : Nat) = 2 ^ k * 2 ^ (32 - k) := h4.symm
      _ = 2 ^ k * ((2 ^ (32 - k) - 1) + 1) := by rw [Nat.sub_add_cancel h1]
      _ = 2 ^ k * (2 ^ (32 - k) - 1) + 2 ^ k := by ring
  rw [hM]
  have hxy : 2 ^ k * (2 ^ (32 - k) - 1) + 2 ^ k + x - y
      = 2 ^ k * (2 ^ (32 - k) - 1) + (2 ^ k + x - y) := by omega
  rw [hxy, Nat.mul_add_mod]

theorem sub32_mod_pow {k a b : Nat} (hk : k ≤ 32) (ha : a < 2 ^ k) (hb : b < 2 ^ k) :
    sub32 a b % 2 ^ k = if b ≤ a then a - b else 2 ^ k + a - b := by
  have h32 : (2 : Nat) ^ k ≤ 4294967296 := two_pow_le_u32 hk
  rw [sub32_val (lt_of_lt_of_le ha h32) (lt_of_lt_of_le hb h32)]
  split
  · exact Nat.mod_eq_of_lt (by omega)
  · rw [mod_pow_reduce hk a b (le_of_lt hb)]
    exact Nat.mod_eq_of_lt (by omega)

theorem avail_mod_pow {k p c : Nat} (hk : k ≤ 32) (hp : p < 2 ^ k) (hc : c < 2 ^ k) :
    sub32 (sub32 c p) 1 % 2 ^ k =
      if p = c then 2 ^ k - 1
      else if p < c then c - p - 1
      else 2 ^ k - 1 - (p - c) := by
  have h32 : (2 : Nat) ^ k ≤ 4294967296 := two_pow_le_u32 hk
  have hone : (1 : Nat) ≤ 2 ^ k := Nat.one_le_two_pow
  have hp' : p < 4294967296 := lt_of_lt_of_le hp h32
  have hc' : c < 4294967296 := lt_of_lt_of_le hc h32
  have hin : sub32 c p = if p ≤ c then c - p else 4294967296 + c - p := sub32_val hc' hp'
  rw [sub32_val (sub32_lt_u32 c p) (by norm_num : (1 : Nat) < 4294967296)]
  rcases Nat.lt_trichotomy p c with h1 | h1 | h1
  · have hx : sub32 c p = c - p := by rw [hin, if_pos (le_of_lt h1)]
    rw [hx, if_pos (by omega : 1 ≤ c - p), Nat.mod_eq_of_lt (by omega : c - p - 1 < 2 ^ k),
      if_neg (by omega : ¬ p = c), if_pos h1]
  · subst h1
    have hx : sub32 p p = 0 := by rw [hin, if_pos le_rfl]; omega
    rw [hx, if_neg (by omega : ¬ (1 : Nat) ≤ 0), if_pos rfl]
    have he : (4294967296 + 0 - 1 : Nat) = 4294967296 + (2 ^ k - 1) - 2 ^ k := by omega
    rw [he, mod_pow_reduce hk _ _ le_rfl]
    rw [Nat.mod_eq_of_lt (by omega : 2 ^ k + (2 ^ k - 1) - 2 ^ k < 2 ^ k)]
    omega
  · have hx : sub32 c p = 4294967296 + c - p := by rw [hin, if_neg (by omega)]
    rw [hx, if_pos (by omega : 1 ≤ 4294967296 + c - p)]
    have he : (4294967296 + c - p - 1 : Nat) = 4294967296 + c - (p + 1) := by omega
    rw [he, mod_pow_reduce hk c (p + 1) (by omega)]
    rw [Nat.mod_eq_of_lt (by omega : 2 ^ k + c - (p + 1) < 2 ^ k)]
    rw [if_neg (by omega : ¬ p = c), if_neg (by omega : ¬ p < c)]
    omega

theorem add32_mask_eq {k : Nat} (hk : k ≤ 32) (p n : Nat) :
    add32 p n &&& (2 ^ k - 1) = (p + n) % 2 ^ k := by
  rw [Nat.and_pow_two_sub_one_eq_mod]
  unfold add32
  exact Nat.mod_mod_of_dvd _ (two_pow_dvd_u32 hk)

theorem add_mod_inj {m p i j : Nat} (hi : i < m) (hj : j < m)
    (h : (p + i) % m = (p + j) % m) : i = j := by
  have h2 : Nat.ModEq m i j := Nat.ModEq.add_left_cancel' p h
  have h3 : i % m = j % m := h2
  rw [Nat.mod_eq_of_lt hi, Nat.mod_eq_of_lt hj] at h3
  exact h3

/-! ### Pointwise description of the masked transfer-helper loops -/

theorem store_mask_go_miss {α : Type} (mask : Nat) (ptr : Nat → α) (i0 index count : Nat)
    (ring : Nat → α) (j : Nat) (h : ∀ t, t < count → j ≠ (index + t) &&& mask) :
    store_mask_go mask ptr i0 index count ring j = ring j := by
  induction count generalizing i0 index ring with
  | zero => rfl
  | succ m ih =>
    show store_mask_go mask ptr (i0 + 1) (index + 1) m
        (fun j' => if j' = index &&& mask then ptr i0 else ring j') j = ring j
    rw [ih]
    · have h0 := h 0 (by omega)
      simp only [Nat.add_zero] at h0
      exact if_neg h0
    · intro t ht
      have := h (t + 1) (by omega)
      rwa [show index + (t + 1) = index + 1 + t by omega] at this

theorem store_mask_go_hit {α : Type} (mask : Nat) (ptr : Nat → α) (i0 index count : Nat)
    (ring : Nat → α) (t : Nat) (ht : t < count)
    (hlater : ∀ u, t < u → u < count → (index + u) &&& mask ≠ (index + t) &&& mask) :
    store_mask_go mask ptr i0 index count ring ((index + t) &&& mask) = ptr (i0 + t) := by
  induction count generalizing i0 index ring t with
  | zero => omega
  | succ m ih =>
    show store_mask_go mask ptr (i0 + 1) (index + 1) m
        (fun j' => if j' = index &&& mask then ptr i0 else ring j') ((index + t) &&& mask)
        = ptr (i0 + t)
    match t with
    | 0 =>
      rw [store_mask_go_miss]
      · simp
      · intro u hu
        have := hlater (u + 1) (by omega) (by omega)
        rw [show index + (u + 1) = index + 1 + u by omega] at this
        exact this.symm
    | s + 1 =>
      rw [show index + (s + 1) = index + 1 + s by omega,
        show i0 + (s + 1) = i0 + 1 + s by omega]
      refine ih (i0 + 1) (index + 1) _ s (by omega) ?_
      intro u hu hum
      have hh := hlater (u + 1) (by omega) (by omega)
      rwa [show index + (u + 1) = index + 1 + u by omega,
        show index + (s + 1) = index + 1 + s by omega] at hh

theorem load_mask_go_miss {α : Type} (mask : Nat) (ring : Nat → α) (i0 index count : Nat)
    (out : Nat → α) (j : Nat) (h : ∀ t, t < count → j ≠ i0 + t) :
    load_mask_go mask ring i0 index count out j = out j := by
  induction count generalizing i0 index out with
  | zero => rfl
  | succ m ih =>
    show load_mask_go mask ring (i0 + 1) (index + 1) m
        (fun j' => if j' = i0 then ring (index &&& mask) else out j') j = out j
    rw [ih]
    · have h0 := h 0 (by omega)
      simp only [Nat.add_zero] at h0
      exact if_neg h0
    · intro t ht
      have := h (t + 1) (by omega)
      rwa [show i0 + (t + 1) = i0 + 1 + t by omega] at this

theorem load_mask_go_hit {α : Type} (mask : Nat) (ring : Nat → α) (i0 index count : Nat)
    (out : Nat → α) (t : Nat) (ht : t < count) :
    load_mask_go mask ring i0 index count out (i0 + t) = ring ((index + t) &&& mask) := by
  induction count generalizing i0 index out t with
  | zero => omega
  | succ m ih =>
    show load_mask_go mask ring (i0 + 1) (index + 1) m
        (fun j' => if j' = i0 then ring (index &&& mask) else out j') (i0 + t)
        = ring ((index + t) &&& mask)
    match t with
    | 0 =>
      rw [load_mask_go_miss]
      · simp
      · intro u hu
        omega
    | s + 1 =>
      rw [show i0 + (s + 1) = i0 + 1 + s by omega,
        show index + (s + 1) = index + 1 + s by omega]
      exact ih (i0 + 1) (index + 1) _ s (by omega)

/-! ### Structural facts -/

theorem alf_queue_eta_prod {α : Type} (q : alf_queue α)
    (h : q.producer.tail = q.producer.head) :
    ({ q with producer := ⟨q.producer.head, q.producer.head⟩ } : alf_queue α) = q := by
  rcases q with ⟨s, m, ⟨ph, pt⟩, ca, r⟩
  have h' : pt = ph := h
  subst h'
  rfl

theorem alf_queue_eta_cons {α : Type} (q : alf_queue α)
    (h : q.consumer.tail = q.consumer.head) :
    ({ q with consumer := ⟨q.consumer.head, q.consumer.head⟩ } : alf_queue α) = q := by
  rcases q with ⟨s, m, pa, ⟨ch, ct⟩, r⟩
  have h' : ct = ch := h
  subst h'
  rfl

/-- Invariant of sequentially reachable states: size and mask are the
creation-time values, each side's tail has caught up with its head, and
all cursors lie below the ring size. -/
theorem alf_reachable_inv {α : Type} {k : Nat} {ring0 : Nat → α}
    {q : alf_queue α}
    (h : alf_reachable (alf_queue_init (2 ^ k) (2 ^ k - 1) ring0) q) :
    q.size = 2 ^ k ∧ q.mask = 2 ^ k - 1 ∧
    q.producer.tail = q.producer.head ∧ q.consumer.tail = q.consumer.head ∧
    q.producer.head < 2 ^ k ∧ q.consumer.head < 2 ^ k := by
  induction h with
  | refl =>
    refine ⟨rfl, rfl, rfl, rfl, ?_, ?_⟩ <;>
      exact pow_pos (by norm_num) k
  | @enq q1 q2 ptr n r hreach heq ih =>
    obtain ⟨hs, hm, hpt, hct, hph, hch⟩ := ih
    simp only [alf_mp_enqueue] at heq
    split at heq
    · simp only [Option.some.injEq, Prod.mk.injEq] at heq
      rw [← heq.2]
      exact ⟨hs, hm, hpt, hct, hph, hch⟩
    · simp only [Option.some.injEq, Prod.mk.injEq] at heq
      rw [← heq.2]
      refine ⟨hs, hm, rfl, hct, ?_, hch⟩
      have hle : add32 q1.producer.head n &&& q1.mask ≤ 2 ^ k - 1 := by
        rw [hm]
        exact Nat.and_le_right
      have h1 : (1 : Nat) ≤ 2 ^ k := Nat.one_le_two_pow
      show add32 q1.producer.head n &&& q1.mask < 2 ^ k
      omega
  | @deq q1 q2 out n r out' hreach heq ih =>
    obtain ⟨hs, hm, hpt, hct, hph, hch⟩ := ih
    simp only [alf_mc_dequeue] at heq
    split at heq
    · simp only [Option.some.injEq, Prod.mk.injEq] at heq
      rw [← heq.2.1]
      exact ⟨hs, hm, hpt, hct, hph, hch⟩
    · simp only [Option.some.injEq, Prod.mk.injEq] at heq
      rw [← heq.2.1]
      refine ⟨hs, hm, hpt, rfl, hph, ?_⟩
      have hle : add32 q1.consumer.head (min (sub32 q1.producer.tail q1.consumer.head &&& q1.mask) n) &&& q1.mask ≤ 2 ^ k - 1 := by
        rw [hm]
        exact Nat.and_le_right
      have h1 : (1 : Nat) ≤ 2 ^ k := Nat.one_le_two_pow
      show add32 q1.consumer.head (min (sub32 q1.producer.tail q1.consumer.head &&& q1.mask) n) &&& q1.mask < 2 ^ k
      omega

/-! ### Claim theorems -/

/-- Functional specification of `alf_mp_enqueue` (shared helper lemma):
failure branch leaves the state untouched, success stores the whole batch
and advances both producer cursors. -/
theorem alf_mp_enqueue_spec {α : Type} (k : Nat) (q : alf_queue α)
    (ptr : Nat → α) (n : Nat) (hk : k ≤ 32) (hm : q.mask = 2 ^ k - 1)
    (hpt : q.producer.tail = q.producer.head) :
    (n > alf_queue_avail_space q → alf_mp_enqueue q ptr n = some (-ENOBUFS, q)) ∧
    (n ≤ alf_queue_avail_space q → ∃ q' : alf_queue α,
      alf_mp_enqueue q ptr n = some ((n : Int), q') ∧
      q'.producer.head = (q.producer.head + n) % 2 ^ k ∧
      q'.producer.tail = q'.producer.head ∧
      q'.consumer = q.consumer ∧ q'.size = q.size ∧ q'.mask = q.mask ∧
      (∀ i, i < n → q'.ring ((q.producer.head + i) % 2 ^ k) = ptr i) ∧
      (∀ j, (∀ i, i < n → j ≠ (q.producer.head + i) % 2 ^ k) →
        q'.ring j = q.ring j)) := by
  constructor
  · intro hgt
    have hgt' : n > sub32 (sub32 q.consumer.tail q.producer.head) 1 &&& q.mask := hgt
    simp only [alf_mp_enqueue]
    rw [if_pos hgt']
  · intro hle
    have h1 : (1 : Nat) ≤ 2 ^ k := Nat.one_le_two_pow
    have hspace : alf_queue_avail_space q ≤ 2 ^ k - 1 := by
      unfold alf_queue_avail_space
      rw [hm]
      exact Nat.and_le_right
    have hn : n < 2 ^ k := by omega
    refine ⟨{ q with
        producer := ⟨add32 q.producer.head n &&& q.mask, add32 q.producer.head n &&& q.mask⟩,
        ring := __helper_alf_enqueue_store_mask q.producer.head q.consumer.tail q ptr n },
      ?_, ?_, rfl, rfl, rfl, rfl, ?_, ?_⟩
    · have hle' : ¬ n > sub32 (sub32 q.consumer.tail q.producer.head) 1 &&& q.mask :=
        not_lt.mpr hle
      simp only [alf_mp_enqueue]
      rw [if_neg hle', if_pos hpt]
    · show add32 q.producer.head n &&& q.mask = (q.producer.head + n) % 2 ^ k
      rw [hm, add32_mask_eq hk]
    · intro i hi
      show store_mask_go q.mask ptr 0 q.producer.head n q.ring
          ((q.producer.head + i) % 2 ^ k) = ptr i
      rw [hm, ← Nat.and_pow_two_sub_one_eq_mod]
      have hh := store_mask_go_hit (2 ^ k - 1) ptr 0 q.producer.head n q.ring i hi ?_
      · rwa [Nat.zero_add] at hh
      · intro u hu hun heq'
        rw [Nat.and_pow_two_sub_one_eq_mod, Nat.and_pow_two_sub_one_eq_mod] at heq'
        have := add_mod_inj (lt_trans hun hn) (lt_trans hi hn) heq'
        omega
    · intro j hj
      show store_mask_go q.mask ptr 0 q.producer.head n q.ring j = q.ring j
      rw [hm]
      apply store_mask_go_miss
      intro t ht
      rw [Nat.and_pow_two_sub_one_eq_mod]
      exact hj t ht

/-- Functional specification of `alf_mc_dequeue` (shared helper lemma):
it never errors, returns `min available n` elements taken in order from
`consumer.head`, and advances both consumer cursors by that amount. -/
theorem alf_mc_dequeue_spec {α : Type} (k : Nat) (q : alf_queue α)
    (out : Nat → α) (n : Nat) (hk : k ≤ 32) (hm : q.mask = 2 ^ k - 1)
    (hch : q.consumer.head < 2 ^ k) (hpt : q.producer.tail < 2 ^ k)
    (hct : q.consumer.tail = q.consumer.head) :
    ∃ q' : alf_queue α, ∃ out' : Nat → α,
      alf_mc_dequeue q out n
        = some (((min (alf_queue_count q) n : Nat) : Int), q', out') ∧
      (∀ i, i < min (alf_queue_count q) n →
        out' i = q.ring ((q.consumer.head + i) % 2 ^ k)) ∧
      (∀ i, min (alf_queue_count q) n ≤ i → out' i = out i) ∧
      q'.consumer.head = (q.consumer.head + min (alf_queue_count q) n) % 2 ^ k ∧
      q'.consumer.tail = q'.consumer.head ∧
      q'.producer = q.producer ∧ q'.size = q.size ∧ q'.mask = q.mask ∧
      q'.ring = q.ring ∧
      (alf_queue_count q = 0 → q' = q ∧ out' = out) ∧
      (alf_queue_count q ≤ n → alf_queue_empty q' = true) := by
  have h1 : (1 : Nat) ≤ 2 ^ k := Nat.one_le_two_pow
  have hcham : sub32 q.producer.tail q.consumer.head &&& q.mask
      = if q.consumer.head ≤ q.producer.tail
        then q.producer.tail - q.consumer.head
        else 2 ^ k + q.producer.tail - q.consumer.head := by
    rw [hm, Nat.and_pow_two_sub_one_eq_mod]
    exact sub32_mod_pow hk hpt hch
  by_cases hzero : alf_queue_count q = 0
  · have hmin : min (alf_queue_count q) n = 0 := by rw [hzero]; exact Nat.zero_min n
    have hz : sub32 q.producer.tail q.consumer.head &&& q.mask = 0 := hzero
    have hpc : q.producer.tail = q.consumer.head := by
      rw [hcham] at hz
      split at hz <;> omega
    refine ⟨q, out, ?_, ?_, ?_, ?_, hct, rfl, rfl, rfl, rfl, fun _ => ⟨rfl, rfl⟩, ?_⟩
    · simp only [alf_mc_dequeue]
      rw [if_pos hz, hmin]
      rfl
    · intro i hi
      rw [hmin] at hi
      omega
    · intro i _
      rfl
    · rw [hmin, Nat.add_zero, Nat.mod_eq_of_lt hch]
    · intro _
      show (q.consumer.tail == q.producer.tail) = true
      rw [hct, hpc, beq_self_eq_true]
  · have hzero' : ¬ sub32 q.producer.tail q.consumer.head &&& q.mask = 0 := hzero
    refine ⟨{ q with consumer :=
        ⟨add32 q.consumer.head (min (alf_queue_count q) n) &&& q.mask,
         add32 q.consumer.head (min (alf_queue_count q) n) &&& q.mask⟩ },
      __helper_alf_dequeue_load_mask q.consumer.head q.producer.tail q out
        (min (alf_queue_count q) n),
      ?_, ?_, ?_, ?_, rfl, rfl, rfl, rfl, rfl, fun h => absurd h hzero, ?_⟩
    · simp only [alf_mc_dequeue]
      rw [if_neg hzero', if_pos hct]
      rfl
    · intro i hi
      show load_mask_go q.mask q.ring 0 q.consumer.head (min (alf_queue_count q) n) out i
          = q.ring ((q.consumer.head + i) % 2 ^ k)
      rw [← Nat.and_pow_two_sub_one_eq_mod, ← hm]
      have hh := load_mask_go_hit q.mask q.ring 0 q.consumer.head
        (min (alf_queue_count q) n) out i hi
      rwa [Nat.zero_add] at hh
    · intro i hi
      show load_mask_go q.mask q.ring 0 q.consumer.head (min (alf_queue_count q) n) out i
          = out i
      apply load_mask_go_miss
      intro t ht
      omega
    · show add32 q.consumer.head (min (alf_queue_count q) n) &&& q.mask
          = (q.consumer.head + min (alf_queue_count q) n) % 2 ^ k
      rw [hm, add32_mask_eq hk]
    · intro hle
      have hmin : min (alf_queue_count q) n = alf_queue_count q := Nat.min_eq_left hle
      have hkey : add32 q.consumer.head (min (alf_queue_count q) n) &&& q.mask
          = q.producer.tail := by
        rw [hmin, hm, add32_mask_eq hk]
        show (q.consumer.head + alf_queue_count q) % 2 ^ k = q.producer.tail
        unfold alf_queue_count
        rw [hcham]
        split
        · rw [Nat.add_sub_cancel' (by assumption), Nat.mod_eq_of_lt hpt]
        · have he : q.consumer.head + (2 ^ k + q.producer.tail - q.consumer.head)
              = 2 ^ k + q.producer.tail := by omega
          rw [he, Nat.add_mod_left, Nat.mod_eq_of_lt hpt]
      show (add32 q.consumer.head (min (alf_queue_count q) n) &&& q.mask
          == q.producer.tail) = true
      rw [hkey, beq_self_eq_true]

/-- Claim C2: all-or-nothing enqueue.  If `n` exceeds the available space
computed from the snapshot of `consumer.tail` and `producer.head`
(`space = (consumer.tail - producer.head - 1) mod size`), then
`alf_mp_enqueue` returns the `-ENOBUFS` error and the queue state —
cursors, ring contents, count, available space — is unchanged; otherwise
it stores all `n` references into the slots following `producer.head`,
leaves every other slot untouched, advances both producer cursors by `n`
modulo `size = 2 ^ k`, and returns `n`. -/
theorem alf_mp_enqueue_all_or_nothing {α : Type} (k : Nat) (q : alf_queue α)
    (ptr : Nat → α) (n : Nat) (hk : k ≤ 32) (hm : q.mask = 2 ^ k - 1)
    (hpt : q.producer.tail = q.producer.head) :
    (n > alf_queue_avail_space q → alf_mp_enqueue q ptr n = some (-ENOBUFS, q)) ∧
    (n ≤ alf_queue_avail_space q → ∃ q' : alf_queue α,
      alf_mp_enqueue q ptr n = some ((n : Int), q') ∧
      q'.producer.head = (q.producer.head + n) % 2 ^ k ∧
      q'.producer.tail = q'.producer.head ∧
      q'.consumer = q.consumer ∧ q'.size = q.size ∧ q'.mask = q.mask ∧
      (∀ i, i < n → q'.ring ((q.producer.head + i) % 2 ^ k) = ptr i) ∧
      (∀ j, (∀ i, i < n → j ≠ (q.producer.head + i) % 2 ^ k) →
        q'.ring j = q.ring j)) :=
  alf_mp_enqueue_spec k q ptr n hk hm hpt

/-- Claim C3: partial-acceptance dequeue.  `alf_mc_dequeue` never errors:
it returns exactly `min available n` elements, where
`available = (producer.tail - consumer.head) mod size` is
`alf_queue_count`; the returned elements are the ring slots following
`consumer.head`, the rest of the output buffer is untouched, the consumer
cursors advance by exactly that many positions (mod `size = 2 ^ k`), the
producer side and the ring are unchanged, an empty queue gives `0` with no
state change at all, and requesting at least `available` drains the queue
to empty. -/
theorem alf_mc_dequeue_partial_acceptance {α : Type} (k : Nat) (q : alf_queue α)
    (out : Nat → α) (n : Nat) (hk : k ≤ 32) (hm : q.mask = 2 ^ k - 1)
    (hch : q.consumer.head < 2 ^ k) (hpt : q.producer.tail < 2 ^ k)
    (hct : q.consumer.tail = q.consumer.head) :
    ∃ q' : alf_queue α, ∃ out' : Nat → α,
      alf_mc_dequeue q out n
        = some (((min (alf_queue_count q) n : Nat) : Int), q', out') ∧
      (∀ i, i < min (alf_queue_count q) n →
        out' i = q.ring ((q.consumer.head + i) % 2 ^ k)) ∧
      (∀ i, min (alf_queue_count q) n ≤ i → out' i = out i) ∧
      q'.consumer.head = (q.consumer.head + min (alf_queue_count q) n) % 2 ^ k ∧
      q'.consumer.tail = q'.consumer.head ∧
      q'.producer = q.producer ∧ q'.size = q.size ∧ q'.mask = q.mask ∧
      q'.ring = q.ring ∧
      (alf_queue_count q = 0 → q' = q ∧ out' = out) ∧
      (alf_queue_count q ≤ n → alf_queue_empty q' = true) :=
  alf_mc_dequeue_spec k q out n hk hm hch hpt hct

/-- Witness for the C2 theorem: on a fresh size-4 queue (available space
3), a batch of 4 is rejected with `-ENOBUFS` and no state change. -/
theorem alf_mp_enqueue_all_or_nothing_witness :
    alf_mp_enqueue (alf_queue_init 4 3 (fun _ => (0 : Nat))) (fun i => i) 4
      = some (-ENOBUFS, alf_queue_init 4 3 (fun _ => (0 : Nat))) :=
  (alf_mp_enqueue_all_or_nothing 2 (alf_queue_init 4 3 (fun _ => (0 : Nat)))
    (fun i => i) 4 (by norm_num) rfl rfl).1 (by decide)

/-- Witness for the C3 theorem: dequeuing 10 from a fresh (empty) size-4
queue returns 0 immediately. -/
theorem alf_mc_dequeue_partial_acceptance_witness :
    ∃ q' : alf_queue Nat, ∃ out' : Nat → Nat,
      alf_mc_dequeue (alf_queue_init 4 3 (fun _ => (0 : Nat))) (fun _ => 0) 10
        = some (0, q', out') := by
  obtain ⟨q', out', heq, -⟩ := alf_mc_dequeue_partial_acceptance 2
    (alf_queue_init 4 3 (fun _ => (0 : Nat))) (fun _ => 0) 10 (by norm_num) rfl
    (by decide) (by decide) rfl
  exact ⟨q', out', heq⟩

/-- Claim C5: for every state reachable from the initial all-zero-cursor
state by complete enqueue and dequeue calls, `alf_queue_count` plus
`alf_queue_avail_space` equals `size - 1`. -/
theorem alf_queue_count_add_avail_space {α : Type} (k : Nat) (ring0 : Nat → α)
    (q : alf_queue α) (hk : k ≤ 32)
    (h : alf_reachable (alf_queue_init (2 ^ k) (2 ^ k - 1) ring0) q) :
    alf_queue_count q + alf_queue_avail_space q = q.size - 1 := by
  obtain ⟨hs, hm, hpt, hct, hph, hch⟩ := alf_reachable_inv h
  unfold alf_queue_count alf_queue_avail_space
  rw [hs, hm, hpt, hct, Nat.and_pow_two_sub_one_eq_mod, Nat.and_pow_two_sub_one_eq_mod]
  rw [sub32_mod_pow hk hph hch, avail_mod_pow hk hph hch]
  have h1 : (1 : Nat) ≤ 2 ^ k := Nat.one_le_two_pow
  rcases Nat.lt_trichotomy q.producer.head q.consumer.head with h2 | h2 | h2
  · rw [if_neg (by omega), if_neg (by omega), if_pos h2]
    omega
  · rw [if_pos (by omega), if_pos h2]
    omega
  · rw [if_pos (by omega), if_neg (by omega), if_neg (by omega)]
    omega

/-- Witness for the C5 theorem: the freshly created size-4 queue. -/
theorem alf_queue_count_add_avail_space_witness :
    alf_queue_count (alf_queue_init 4 3 (fun _ => (0 : Nat)))
      + alf_queue_avail_space (alf_queue_init 4 3 (fun _ => (0 : Nat)))
      = (alf_queue_init 4 3 (fun _ => (0 : Nat))).size - 1 :=
  alf_queue_count_add_avail_space 2 (fun _ => (0 : Nat)) _ (by norm_num)
    alf_reachable.refl

/-- Claim C9: every cursor update stores a value already reduced modulo
`size` (`(head + n) & mask`), so starting from zero all four cursors of any
reachable state stay in `[0, size)` — the counters wrap at `size`, not at
`2^32`. -/
theorem alf_reachable_cursors_lt_size {α : Type} (k : Nat) (ring0 : Nat → α)
    (q : alf_queue α)
    (h : alf_reachable (alf_queue_init (2 ^ k) (2 ^ k - 1) ring0) q) :
    q.producer.head < q.size ∧ q.producer.tail < q.size ∧
    q.consumer.head < q.size ∧ q.consumer.tail < q.size := by
  obtain ⟨hs, hm, hpt, hct, hph, hch⟩ := alf_reachable_inv h
  rw [hs, hpt, hct]
  exact ⟨hph, hph, hch, hch⟩

/-- Witness for the C9 theorem: the freshly created size-4 queue. -/
theorem alf_reachable_cursors_lt_size_witness :
    (alf_queue_init 4 3 (fun _ => (0 : Nat))).producer.head
        < (alf_queue_init 4 3 (fun _ => (0 : Nat))).size ∧
    (alf_queue_init 4 3 (fun _ => (0 : Nat))).producer.tail
        < (alf_queue_init 4 3 (fun _ => (0 : Nat))).size ∧
    (alf_queue_init 4 3 (fun _ => (0 : Nat))).consumer.head
        < (alf_queue_init 4 3 (fun _ => (0 : Nat))).size ∧
    (alf_queue_init 4 3 (fun _ => (0 : Nat))).consumer.tail
        < (alf_queue_init 4 3 (fun _ => (0 : Nat))).size :=
  alf_reachable_cursors_lt_size 2 (fun _ => (0 : Nat)) _ alf_reachable.refl

/-- Claim C10: zero-length calls are no-ops at the public interface:
`alf_mp_enqueue` with `n = 0` returns `0` (success) and `alf_mc_dequeue`
with `n = 0` returns `0`, and in both cases the cursors, every ring slot
and the output buffer are unchanged. -/
theorem zero_length_calls_noop {α : Type} (k : Nat) (q : alf_queue α)
    (ptr out : Nat → α) (hk : k ≤ 32) (hm : q.mask = 2 ^ k - 1)
    (hph : q.producer.head < 2 ^ k) (hpt : q.producer.tail = q.producer.head)
    (hch : q.consumer.head < 2 ^ k) (hct : q.consumer.tail = q.consumer.head) :
    alf_mp_enqueue q ptr 0 = some (0, q) ∧
    alf_mc_dequeue q out 0 = some (0, q, out) := by
  have hpnext : add32 q.producer.head 0 &&& q.mask = q.producer.head := by
    rw [hm, add32_mask_eq hk, Nat.add_zero, Nat.mod_eq_of_lt hph]
  have hcnext : add32 q.consumer.head 0 &&& q.mask = q.consumer.head := by
    rw [hm, add32_mask_eq hk, Nat.add_zero, Nat.mod_eq_of_lt hch]
  constructor
  · have hno : ¬ (0 > sub32 (sub32 q.consumer.tail q.producer.head) 1 &&& q.mask) := by
      omega
    simp only [alf_mp_enqueue]
    rw [if_neg hno, if_pos hpt, hpnext]
    exact congrArg (fun x => some (((0 : Nat) : Int), x)) (alf_queue_eta_prod q hpt)
  · by_cases hz : sub32 q.producer.tail q.consumer.head &&& q.mask = 0
    · simp only [alf_mc_dequeue]
      rw [if_pos hz]
    · simp only [alf_mc_dequeue]
      rw [if_neg hz, if_pos hct, Nat.min_zero, hcnext]
      exact congrArg (fun x => some (((0 : Nat) : Int), x, out)) (alf_queue_eta_cons q hct)

/-- Witness for the C10 theorem: the freshly created size-4 queue. -/
theorem zero_length_calls_noop_witness :
    alf_mp_enqueue (alf_queue_init 4 3 (fun _ => (0 : Nat))) (fun _ => 1) 0
      = some (0, alf_queue_init 4 3 (fun _ => (0 : Nat))) ∧
    alf_mc_dequeue (alf_queue_init 4 3 (fun _ => (0 : Nat))) (fun _ => 2) 0
      = some (0, alf_queue_init 4 3 (fun _ => (0 : Nat)), fun _ => 2) :=
  zero_length_calls_noop 2 (alf_queue_init 4 3 (fun _ => (0 : Nat)))
    (fun _ => 1) (fun _ => 2) (by norm_num) rfl (by decide) rfl (by decide) rfl

/-- Claim C4: sequential FIFO round trip.  Starting from an empty queue of
size 8 (capacity 7 ≥ 5), enqueuing the batch `[a, b, c, d, e]` with
`alf_mp_enqueue` and then calling `alf_mc_dequeue` three times with
`n = 2` yields `[a, b]`, then `[c, d]`, then `[e]` (the third call returns
1 element), preserving the original enqueue order and leaving the queue
empty. -/
theorem fifo_round_trip (a b c d e : Nat) :
    ∃ q1 q2 q3 q4 : alf_queue Nat, ∃ out1 out2 out3 : Nat → Nat,
      alf_mp_enqueue (alf_queue_init 8 7 (fun _ => 0))
        (fun i => [a, b, c, d, e].getD i 0) 5 = some (5, q1) ∧
      alf_mc_dequeue q1 (fun _ => 0) 2 = some (2, q2, out1) ∧
      out1 0 = a ∧ out1 1 = b ∧
      alf_mc_dequeue q2 (fun _ => 0) 2 = some (2, q3, out2) ∧
      out2 0 = c ∧ out2 1 = d ∧
      alf_mc_dequeue q3 (fun _ => 0) 2 = some (1, q4, out3) ∧
      out3 0 = e ∧
      alf_queue_empty q4 = true := by
  -- step 1: enqueue the batch
  obtain ⟨q1, he1, hh1, ht1, hc1, hs1, hm1, hr1, -⟩ :=
    (alf_mp_enqueue_spec 3 (alf_queue_init 8 7 (fun _ => 0))
      (fun i => [a, b, c, d, e].getD i 0) 5 (by norm_num) rfl rfl).2 (by decide)
  rw [show (alf_queue_init 8 7 (fun _ => (0 : Nat))).producer.head = 0 from rfl] at hh1 hr1
  have hph1 : q1.producer.head = 5 := by rw [hh1]; decide
  have hpt1 : q1.producer.tail = 5 := by rw [ht1, hph1]
  have hcons1 : q1.consumer = ⟨0, 0⟩ := by rw [hc1]; rfl
  have hmask1 : q1.mask = 7 := by rw [hm1]; rfl
  have hra : q1.ring 0 = a := by have h := hr1 0 (by norm_num); simpa using h
  have hrb : q1.ring 1 = b := by have h := hr1 1 (by norm_num); simpa using h
  have hrc : q1.ring 2 = c := by have h := hr1 2 (by norm_num); simpa using h
  have hrd : q1.ring 3 = d := by have h := hr1 3 (by norm_num); simpa using h
  have hre : q1.ring 4 = e := by have h := hr1 4 (by norm_num); simpa using h
  -- step 2: first dequeue of 2
  obtain ⟨q2, out1, he2, hout1, -, hch2, hct2, hprod2, hs2, hm2, hring2, -, -⟩ :=
    alf_mc_dequeue_spec 3 q1 (fun _ => 0) 2 (by norm_num) (hmask1.trans (by decide))
      (by rw [hcons1]; decide) (by rw [hpt1]; decide) (by rw [hcons1])
  have hcnt1 : alf_queue_count q1 = 5 := by
    unfold alf_queue_count
    rw [hpt1, hcons1, hmask1]
    decide
  rw [hcnt1] at he2 hout1 hch2
  rw [hcons1] at hout1 hch2
  norm_num at he2 hch2
  have ho10 : out1 0 = a := by
    have h := hout1 0 (by norm_num)
    simp at h
    rw [h, hra]
  have ho11 : out1 1 = b := by
    have h := hout1 1 (by norm_num)
    simp at h
    rw [h, hrb]
  have hpt2 : q2.producer.tail = 5 := by rw [hprod2]; exact hpt1
  have hmask2 : q2.mask = 7 := by rw [hm2]; exact hmask1
  -- step 3: second dequeue of 2
  obtain ⟨q3, out2, he3, hout2, -, hch3, hct3, hprod3, hs3, hm3, hring3, -, -⟩ :=
    alf_mc_dequeue_spec 3 q2 (fun _ => 0) 2 (by norm_num) (hmask2.trans (by decide))
      (by rw [hch2]; decide) (by rw [hpt2]; decide) hct2
  have hcnt2 : alf_queue_count q2 = 3 := by
    unfold alf_queue_count
    rw [hpt2, hch2, hmask2]
    decide
  rw [hcnt2] at he3 hout2 hch3
  rw [hch2] at hout2 hch3
  norm_num at he3 hch3
  have ho20 : out2 0 = c := by
    have h := hout2 0 (by norm_num)
    simp at h
    rw [h, hring2, hrc]
  have ho21 : out2 1 = d := by
    have h := hout2 1 (by norm_num)
    simp at h
    rw [h, hring2, hrd]
  have hpt3 : q3.producer.tail = 5 := by rw [hprod3]; exact hpt2
  have hmask3 : q3.mask = 7 := by rw [hm3]; exact hmask2
  -- step 4: third dequeue, returns the single remaining element
  obtain ⟨q4, out3, he4, hout3, -, hch4, hct4, hprod4, hs4, hm4, hring4, -, hemp4⟩ :=
    alf_mc_dequeue_spec 3 q3 (fun _ => 0) 2 (by norm_num) (hmask3.trans (by decide))
      (by rw [hch3]; decide) (by rw [hpt3]; decide) hct3
  have hcnt3 : alf_queue_count q3 = 1 := by
    unfold alf_queue_count
    rw [hpt3, hch3, hmask3]
    decide
  rw [hcnt3] at he4 hout3
  norm_num at he4
  have ho30 : out3 0 = e := by
    have h := hout3 0 (by norm_num)
    rw [hch3] at h
    simp at h
    rw [h, hring3, hring2, hre]
  have hempty : alf_queue_empty q4 = true := hemp4 (by rw [hcnt3]; norm_num)
  exact ⟨q1, q2, q3, q4, out1, out2, out3, he1, he2, ho10, ho11, he3, ho20, ho21,
    he4, ho30, hempty⟩

/-- Claim C6: capacity boundary.  On a queue of effective size 4 (mask 3)
starting empty, three single-element `alf_mp_enqueue` calls each succeed
returning 1, and a fourth returns `-ENOBUFS` leaving the state unchanged:
the queue holds at most `size - 1 = 3` elements. -/
theorem capacity_boundary :
    ∃ q1 q2 q3 : alf_queue Nat,
      alf_mp_enqueue (alf_queue_init 4 3 (fun _ => 0)) (fun _ => 7) 1 = some (1, q1) ∧
      alf_mp_enqueue q1 (fun _ => 8) 1 = some (1, q2) ∧
      alf_mp_enqueue q2 (fun _ => 9) 1 = some (1, q3) ∧
      alf_mp_enqueue q3 (fun _ => 10) 1 = some (-ENOBUFS, q3) ∧
      alf_queue_count q3 = 3 ∧ alf_queue_avail_space q3 = 0 :=
  ⟨⟨4, 3, ⟨1, 1⟩, ⟨0, 0⟩, store_mask_go 3 (fun _ => 7) 0 0 1 (fun _ => 0)⟩,
   ⟨4, 3, ⟨2, 2⟩, ⟨0, 0⟩,
      store_mask_go 3 (fun _ => 8) 0 1 1 (store_mask_go 3 (fun _ => 7) 0 0 1 (fun _ => 0))⟩,
   ⟨4, 3, ⟨3, 3⟩, ⟨0, 0⟩,
      store_mask_go 3 (fun _ => 9) 0 2 1
        (store_mask_go 3 (fun _ => 8) 0 1 1 (store_mask_go 3 (fun _ => 7) 0 0 1 (fun _ => 0)))⟩,
   rfl, rfl, rfl, rfl, rfl, rfl⟩

/-- Claim C7: the block-memory-move (`memcpy`) transfer helpers are
defective.  On a size-4 ring holding `100 + i` at slot `i`: a wrapping
store with `p_head = 1`, `c_tail = 3`, `n = 3` computes its split point
from `c_tail` instead of `p_head`, so slot 2 differs from the masked
helper's result; a wrapping load with `c_head = 3`, `p_tail = 2`,
`elems = 3` computes its second block length from `p_tail` instead of
`elems`, so output cell 2 differs from the masked helper's result. -/
theorem memcpy_helpers_diverge_from_mask :
    (__helper_alf_enqueue_store_memcpy 1 3
        (⟨4, 3, ⟨1, 1⟩, ⟨3, 3⟩, fun i => 100 + i⟩ : alf_queue Nat) (fun i => i + 1) 3) 2
      ≠ (__helper_alf_enqueue_store_mask 1 3
        (⟨4, 3, ⟨1, 1⟩, ⟨3, 3⟩, fun i => 100 + i⟩ : alf_queue Nat) (fun i => i + 1) 3) 2 ∧
    (__helper_alf_dequeue_load_memcpy 3 2
        (⟨4, 3, ⟨1, 1⟩, ⟨3, 3⟩, fun i => 100 + i⟩ : alf_queue Nat) (fun _ => 0) 3) 2
      ≠ (__helper_alf_dequeue_load_mask 3 2
        (⟨4, 3, ⟨1, 1⟩, ⟨3, 3⟩, fun i => 100 + i⟩ : alf_queue Nat) (fun _ => 0) 3) 2 := by
  decide

/-- Claim C1 (refuted on the code): the wrap-check (`simple`) transfer
helpers are NOT semantically identical to the masked helpers.  On a
wrapping transfer over a size-4 ring (`p_head = 2`, `n = 3`), the masked
store places the third element at slot 0, while the `simple` store's late
wrap check (`if (index == q->size) index = 0;` after the store, clobbered
by the loop's `index++`) writes that element at index 4 — one past the
array — and leaves slot 0 stale; symmetrically the `simple` load reads
index 4 instead of slot 0. -/
theorem simple_helpers_diverge_from_mask :
    (__helper_alf_enqueue_store_mask 2 1
        (⟨4, 3, ⟨2, 2⟩, ⟨1, 1⟩, fun _ => 0⟩ : alf_queue Nat) (fun i => i + 10) 3) 0 = 12 ∧
    (__helper_alf_enqueue_store_simple 2 1
        (⟨4, 3, ⟨2, 2⟩, ⟨1, 1⟩, fun _ => 0⟩ : alf_queue Nat) (fun i => i + 10) 3) 0 = 0 ∧
    (__helper_alf_enqueue_store_simple 2 1
        (⟨4, 3, ⟨2, 2⟩, ⟨1, 1⟩, fun _ => 0⟩ : alf_queue Nat) (fun i => i + 10) 3) 4 = 12 ∧
    (__helper_alf_dequeue_load_mask 2 3
        (⟨4, 3, ⟨2, 2⟩, ⟨1, 1⟩, fun i => 100 + i⟩ : alf_queue Nat) (fun _ => 0) 3) 2 = 100 ∧
    (__helper_alf_dequeue_load_simple 2 3
        (⟨4, 3, ⟨2, 2⟩, ⟨1, 1⟩, fun i => 100 + i⟩ : alf_queue Nat) (fun _ => 0) 3) 2 = 104 := by
  decide

/-- Claim C8 (refuted on the code): mutual exclusion of reservations
fails.  Because the head cursors are stored already masked, the
reservation `cmpxchg` admits ABA once the head wraps at `size`: after
`overlap_sched`, producer threads 2 (range `{3}`), 0 (range `{0,1,2}`)
and 3 (range `{3,0}`) all hold granted, unpublished reservations, and
slot 3 lies in both thread 2's and thread 3's range while slot 0 lies in
both thread 0's and thread 3's range. -/
theorem concurrent_reservations_overlap :
    3 ∈ prod_granted_idxs 3 ((sys_run overlap_cfg overlap_sched).threads[2]?) ∧
    3 ∈ prod_granted_idxs 3 ((sys_run overlap_cfg overlap_sched).threads[3]?) ∧
    0 ∈ prod_granted_idxs 3 ((sys_run overlap_cfg overlap_sched).threads[0]?) ∧
    0 ∈ prod_granted_idxs 3 ((sys_run overlap_cfg overlap_sched).threads[3]?) := by
  decide


